import Mathlib

/-!
Verification development for the CurrentShare repository.

Shallow embedding conventions:
* hexadecimal register strings are represented by their parsed numeric
  value, a natural number (`int(hex_str, 16)` in the source);
* real values flowing between stages are represented by exact rationals;
* Python's bitwise `x & ((1 << t) - 1)` on a non-negative integer is
  reduction `x % 2 ^ t`, and on a (possibly negative) Python integer it is
  the Euclidean remainder `x % 2 ^ t` (two's complement);
* Python's test `num & (1 << (t - 1))` of the top bit of a value already
  reduced mod `2 ^ t` holds exactly when `2 ^ (t - 1) ≤ num`;
* `math.floor` is `Int.floor`, Python `int(...)` is truncation toward
  zero, and Python 3 `round(...)` is round-half-to-even.
-/

/-- Truncation toward zero, the behaviour of Python's int() on a real. -/
def pyTrunc (x : ℚ) : ℤ :=
  if 0 ≤ x then ⌊x⌋ else ⌈x⌉

/-- Round half to even, the behaviour of Python 3's round() on a real. -/
def pyRound (x : ℚ) : ℤ :=
  if x - ⌊x⌋ < 1 / 2 then ⌊x⌋
  else if 1 / 2 < x - ⌊x⌋ then ⌊x⌋ + 1
  else if ⌊x⌋ % 2 = 0 then ⌊x⌋ else ⌊x⌋ + 1

namespace Adj

/-- Embeds hex_to_unsigned_fixed of src/adj_current_share.py: mask the
parsed value to the total width and divide by 2^frac_bits. -/
def hex_to_unsigned_fixed (num : ℕ) (int_bits frac_bits : ℕ) : ℚ :=
  let total_bits := int_bits + frac_bits
  ((num % 2 ^ total_bits : ℕ) : ℚ) / ((2 ^ frac_bits : ℕ) : ℚ)

/-- Embeds float_to_unsigned_fixed_hex of src/adj_current_share.py:
scale with math.floor, saturate to [0, 2^total - 1], return the hex
pattern (as its numeric value). -/
def float_to_unsigned_fixed_hex (value : ℚ) (int_bits frac_bits : ℕ) : ℕ :=
  let total_bits := int_bits + frac_bits
  let max_value : ℤ := 2 ^ total_bits - 1
  let scaled : ℤ := ⌊value * ((2 ^ frac_bits : ℕ) : ℚ)⌋
  let saturated : ℤ := max (min scaled max_value) 0
  saturated.toNat

/-- Embeds float_to_unsigned_fixed of src/adj_current_share.py. -/
def float_to_unsigned_fixed (value : ℚ) (int_bits frac_bits : ℕ) : ℚ :=
  let total_bits := int_bits + frac_bits
  let max_value : ℤ := 2 ^ total_bits - 1
  let scaled : ℤ := ⌊value * ((2 ^ frac_bits : ℕ) : ℚ)⌋
  let saturated : ℤ := max (min scaled max_value) 0
  (saturated : ℚ) / ((2 ^ frac_bits : ℕ) : ℚ)

/-- Embeds hex_to_signed_fixed of src/adj_current_share.py.  The source
tests the top bit of the masked value with a bitwise AND; for a value
already reduced mod 2^total_bits that bit is set exactly when the value
is at least 2^(total_bits - 1). -/
def hex_to_signed_fixed (num : ℕ) (int_bits frac_bits : ℕ) : ℚ :=
  let total_bits := int_bits + frac_bits
  let n : ℕ := num % 2 ^ total_bits
  let signed : ℤ := if 2 ^ (total_bits - 1) ≤ n then (n : ℤ) - 2 ^ total_bits else (n : ℤ)
  (signed : ℚ) / ((2 ^ frac_bits : ℕ) : ℚ)

/-- Embeds float_to_signed_fixed_hex of src/adj_current_share.py: scale
with math.floor, saturate to [-2^(total-1), 2^(total-1) - 1], convert to
two's complement (mod 2^total) and return the hex pattern. -/
def float_to_signed_fixed_hex (value : ℚ) (int_bits frac_bits : ℕ) : ℕ :=
  let total_bits := int_bits + frac_bits
  let max_val : ℤ := 2 ^ (total_bits - 1) - 1
  let min_val : ℤ := -(2 ^ (total_bits - 1))
  let scaled : ℤ := ⌊value * ((2 ^ frac_bits : ℕ) : ℚ)⌋
  let saturated : ℤ := max (min scaled max_val) min_val
  (saturated % 2 ^ total_bits).toNat

/-- Embeds float_to_signed_fixed of src/adj_current_share.py. -/
def float_to_signed_fixed (value : ℚ) (int_bits frac_bits : ℕ) : ℚ :=
  let total_bits := int_bits + frac_bits
  let max_val : ℤ := 2 ^ (total_bits - 1) - 1
  let min_val : ℤ := -(2 ^ (total_bits - 1))
  let scaled : ℤ := ⌊value * ((2 ^ frac_bits : ℕ) : ℚ)⌋
  let saturated : ℤ := max (min scaled max_val) min_val
  (saturated : ℚ) / ((2 ^ frac_bits : ℕ) : ℚ)

/-- State of NContinuousProcessor (src/adj_current_share.py): decoded
configuration thresholds/counts plus the mutable counters and latch.
Python stores the counters as numbers (they become floats once clamped
to th_num + 1), so they are rationals here. -/
structure NContinuousProcessor where
  th_pos : ℚ
  th_neg : ℚ
  th_num_pos : ℚ
  th_num_neg : ℚ
  current_pos : ℚ
  current_neg : ℚ
  data : ℚ
  state : Bool
  state_out : Bool

/-- Embeds NContinuousProcessor.__init__ of src/adj_current_share.py. -/
def NContinuousProcessor.create (th_pos_hex th_neg_hex th_num_pos_hex th_num_neg_hex : ℕ) :
    NContinuousProcessor where
  th_pos := hex_to_signed_fixed th_pos_hex 20 0
  th_neg := hex_to_signed_fixed th_neg_hex 20 0
  th_num_pos := hex_to_unsigned_fixed th_num_pos_hex 5 0
  th_num_neg := hex_to_unsigned_fixed th_num_neg_hex 5 0
  current_pos := 0
  current_neg := 0
  data := 0
  state := true
  state_out := true

/-- Embeds NContinuousProcessor.process_data of src/adj_current_share.py:
counter update (with reset_counters inlined as setting both counters to
0), then the latch check, then the return tuple. -/
def NContinuousProcessor.process_data (s : NContinuousProcessor) (new_data_hex : ℕ) :
    NContinuousProcessor × ℚ × ℚ × Bool × ℕ :=
  let data := hex_to_signed_fixed new_data_hex 20 6
  let s1 :=
    if data > s.th_pos then
      if s.state then { s with current_pos := s.current_pos + 1 }
      else { s with current_pos := 0 + 1, current_neg := 0, state := true }
    else if data < s.th_neg then
      if ¬ s.state then { s with current_neg := s.current_neg + 1 }
      else { s with current_pos := 0, current_neg := 0 + 1, state := false }
    else { s with current_pos := 0, current_neg := 0 }
  let s2 :=
    if s1.current_pos > s1.th_num_pos then
      { s1 with current_pos := s1.th_num_pos + 1, data := data, state_out := true }
    else if s1.current_neg ≥ s1.th_num_neg then
      { s1 with current_neg := s1.th_num_neg + 1, data := data, state_out := false }
    else s1
  (s2, s2.current_pos, s2.current_neg, s2.state_out, float_to_signed_fixed_hex s2.data 20 6)

/-- Runs NContinuousProcessor.process_data over a list of samples,
keeping the final state (the batch drivers iterate the same instance). -/
def NContinuousProcessor.run (s : NContinuousProcessor) (samples : List ℕ) :
    NContinuousProcessor :=
  samples.foldl (fun st e => (st.process_data e).1) s

/-- State of PIProcessor (src/adj_current_share.py): decoded gains,
breakpoints and clamp bounds, plus the result registers. -/
structure PIProcessor where
  kp1 : ℚ
  kp1_th : ℚ
  kp2 : ℚ
  kp2_th : ℚ
  ki1 : ℚ
  ki1_th : ℚ
  ki2 : ℚ
  ki2_th : ℚ
  i_clp_pos : ℚ
  i_clp_neg : ℚ
  clp_en : Bool
  result_p : ℚ
  result_i : ℚ
  result_i_last : ℚ
  result_i_before_clp : ℚ
  result_pi : ℚ

/-- Embeds PIProcessor.__init__ of src/adj_current_share.py. -/
def PIProcessor.create (kp1_hex kp1_th_hex kp2_hex kp2_th_hex
    ki1_hex ki1_th_hex ki2_hex ki2_th_hex
    i_clp_pos_hex i_clp_neg_hex : ℕ) (clp_en : Bool) : PIProcessor where
  kp1 := hex_to_unsigned_fixed kp1_hex 0 10
  kp1_th := hex_to_unsigned_fixed kp1_th_hex 19 0
  kp2 := hex_to_unsigned_fixed kp2_hex 0 10
  kp2_th := hex_to_unsigned_fixed kp2_th_hex 19 0
  ki1 := hex_to_unsigned_fixed ki1_hex 0 10
  ki1_th := hex_to_unsigned_fixed ki1_th_hex 19 0
  ki2 := hex_to_unsigned_fixed ki2_hex 0 10
  ki2_th := hex_to_unsigned_fixed ki2_th_hex 19 0
  i_clp_pos := hex_to_signed_fixed i_clp_pos_hex 20 10
  i_clp_neg := hex_to_signed_fixed i_clp_neg_hex 20 10
  clp_en := clp_en
  result_p := 0
  result_i := 0
  result_i_last := 0
  result_i_before_clp := 0
  result_pi := 0

/-- Embeds PIProcessor.pi_process of src/adj_current_share.py: piecewise
P term, piecewise I increment, accumulate and re-quantize, optional
clamp, store, sum, and the three hex return values. -/
def PIProcessor.pi_process (s : PIProcessor) (error_hex : ℕ) : PIProcessor × ℕ × ℕ × ℕ :=
  let error := hex_to_signed_fixed error_hex 20 6
  let result_p :=
    if error > 0 then
      if error < s.kp1_th then 0
      else if error < s.kp2_th then float_to_signed_fixed ((error - s.kp1_th) * s.kp1) 20 10
      else float_to_signed_fixed ((error - s.kp2_th) * s.kp2 + (s.kp2_th - s.kp1_th) * s.kp1) 20 10
    else
      if error > -s.kp1_th then 0
      else if error > -s.kp2_th then float_to_signed_fixed ((error + s.kp1_th) * s.kp1) 20 10
      else float_to_signed_fixed ((error + s.kp2_th) * s.kp2 - (s.kp2_th - s.kp1_th) * s.kp1) 20 10
  let i :=
    if error > 0 then
      if error < s.ki1_th then 0
      else if error < s.ki2_th then float_to_signed_fixed ((error - s.ki1_th) * s.ki1) 20 10
      else float_to_signed_fixed ((error - s.ki2_th) * s.ki2 + (s.ki2_th - s.ki1_th) * s.ki1) 20 10
    else
      if error > -s.ki1_th then 0
      else if error > -s.ki2_th then float_to_signed_fixed ((error + s.ki1_th) * s.ki1) 20 10
      else float_to_signed_fixed ((error + s.ki2_th) * s.ki2 - (s.ki2_th - s.ki1_th) * s.ki1) 20 10
  let result_i_before_clp := float_to_signed_fixed (s.result_i_last + i) 20 10
  let result_i :=
    if s.clp_en then
      if result_i_before_clp > s.i_clp_pos then s.i_clp_pos
      else if result_i_before_clp < s.i_clp_neg then s.i_clp_neg
      else result_i_before_clp
    else result_i_before_clp
  let result_pi := result_p + result_i
  let s' := { s with
    result_p := result_p
    result_i := result_i
    result_i_last := result_i
    result_i_before_clp := result_i_before_clp
    result_pi := result_pi }
  (s', float_to_signed_fixed_hex result_p 20 10, float_to_signed_fixed_hex result_i 20 10,
    float_to_signed_fixed_hex result_pi 21 10)

/-- Runs PIProcessor.pi_process over a list of error inputs, keeping the
final state (the batch drivers iterate the same instance). -/
def PIProcessor.pi_run (s : PIProcessor) (errors : List ℕ) : PIProcessor :=
  errors.foldl (fun st e => (st.pi_process e).1) s

/-- Embeds correct_algorithm of src/adj_current_share.py: gain, offset,
optional clamp, and the two hex return values. -/
def correct_algorithm (pi_result_hex k2_hex offset_hex clp_pos_hex clp_neg_hex : ℕ)
    (clp_en : Bool) : ℕ × ℕ :=
  let pi_result := hex_to_signed_fixed pi_result_hex 20 10
  let k2 := hex_to_unsigned_fixed k2_hex 6 6
  let offset := hex_to_signed_fixed offset_hex 7 4
  let pi_result_after_k := float_to_signed_fixed (pi_result * k2) 27 5
  let pi_result_after_offset := float_to_signed_fixed (pi_result_after_k + offset) 28 4
  let pi_result_after_clp :=
    if clp_en then
      let clp_pos := hex_to_signed_fixed clp_pos_hex 7 4
      let clp_neg := hex_to_signed_fixed clp_neg_hex 7 4
      if pi_result_after_offset > clp_pos then clp_pos
      else if pi_result_after_offset < clp_neg then clp_neg
      else float_to_signed_fixed pi_result_after_offset 7 4
    else float_to_signed_fixed pi_result_after_offset 7 4
  (float_to_signed_fixed_hex pi_result_after_offset 28 4,
    float_to_signed_fixed_hex pi_result_after_clp 7 4)

end Adj

namespace Droop

/-- Embeds hex_to_unsigned_fixed of src/droop.py (textually identical to
the copy in src/adj_current_share.py). -/
def hex_to_unsigned_fixed (num : ℕ) (int_bits frac_bits : ℕ) : ℚ :=
  let total_bits := int_bits + frac_bits
  ((num % 2 ^ total_bits : ℕ) : ℚ) / ((2 ^ frac_bits : ℕ) : ℚ)

/-- Embeds droop_algorithm of src/droop.py: two-segment piecewise droop
value from the decoded inputs, returned as a raw real (no re-encode in
this function). -/
def droop_algorithm (hex_data hex_k hex_r1 hex_r2 hex_th : ℕ) : ℚ :=
  let data := hex_to_unsigned_fixed hex_data 12 0
  let k := hex_to_unsigned_fixed hex_k 0 12
  let r1 := hex_to_unsigned_fixed hex_r1 6 6
  let r2 := hex_to_unsigned_fixed hex_r2 6 6
  let th := hex_to_unsigned_fixed hex_th 12 0
  if data < th then data * r1 * k
  else (th * r1 + (data - th) * r2) * k

end Droop

namespace Analog

/-- Embeds hex_to_unsigned_fixed of src/analog_current_share.py
(textually identical to the copy in src/adj_current_share.py). -/
def hex_to_unsigned_fixed (num : ℕ) (int_bits frac_bits : ℕ) : ℚ :=
  let total_bits := int_bits + frac_bits
  ((num % 2 ^ total_bits : ℕ) : ℚ) / ((2 ^ frac_bits : ℕ) : ℚ)

/-- Embeds float_to_unsigned_fixed_hex_round of
src/analog_current_share.py: scale with Python 3 round (half-to-even),
saturate to [0, 2^total - 1], return the hex pattern. -/
def float_to_unsigned_fixed_hex_round (value : ℚ) (int_bits frac_bits : ℕ) : ℕ :=
  let total_bits := int_bits + frac_bits
  let max_value : ℤ := 2 ^ total_bits - 1
  let scaled : ℤ := pyRound (value * ((2 ^ frac_bits : ℕ) : ℚ))
  let saturated : ℤ := max (min scaled max_value) 0
  saturated.toNat

/-- Embeds analog_current_share_algorithm of
src/analog_current_share.py: duty computation, double re-encode (the
second being the saturating clamp to the strictly fractional u0.12
format), and the integer high/low PWM counts (Python int(x + 0.5)). -/
def analog_current_share_algorithm (hex_data hex_trim : ℕ) (int_adc int_prd_pwm : ℕ) :
    ℕ × ℕ × ℤ × ℤ :=
  let data := hex_to_unsigned_fixed hex_data 12 0
  let trim := hex_to_unsigned_fixed hex_trim 1 12
  let adc_bits := int_adc
  let prd_pwm : ℕ := (int_prd_pwm + 1) * 100
  let duty_pwm := data * trim / ((2 ^ adc_bits : ℕ) : ℚ) * hex_to_unsigned_fixed 0xCCD 0 12
  let hex_duty_pwm := float_to_unsigned_fixed_hex_round duty_pwm 13 12
  let float_duty_pwm := hex_to_unsigned_fixed hex_duty_pwm 13 12
  let hex_duty_pwm_clamped := float_to_unsigned_fixed_hex_round float_duty_pwm 0 12
  let float_duty_pwm_clamped := hex_to_unsigned_fixed hex_duty_pwm_clamped 0 12
  let pwm_high : ℤ := pyTrunc (float_duty_pwm_clamped * (prd_pwm : ℚ) + 1/2)
  let pwm_low : ℤ := (prd_pwm : ℤ) - pwm_high
  (hex_duty_pwm, hex_duty_pwm_clamped, pwm_high, pwm_low)

end Analog

namespace Adj

lemma hex_to_unsigned_eval (num int_bits frac_bits : ℕ)
    (h : num < 2 ^ (int_bits + frac_bits)) :
    hex_to_unsigned_fixed num int_bits frac_bits = (num : ℚ) / ((2 ^ frac_bits : ℕ) : ℚ) := by
  simp only [hex_to_unsigned_fixed]
  rw [Nat.mod_eq_of_lt h]

lemma hex_to_signed_eval_low (num int_bits frac_bits : ℕ)
    (h : num < 2 ^ (int_bits + frac_bits - 1)) :
    hex_to_signed_fixed num int_bits frac_bits = (num : ℚ) / ((2 ^ frac_bits : ℕ) : ℚ) := by
  have hlt : num < 2 ^ (int_bits + frac_bits) :=
    lt_of_lt_of_le h (Nat.pow_le_pow_right (by norm_num) (Nat.sub_le _ _))
  simp only [hex_to_signed_fixed]
  rw [Nat.mod_eq_of_lt hlt, if_neg (not_le.mpr h)]
  push_cast
  ring

lemma hex_to_signed_eval_high (num int_bits frac_bits : ℕ)
    (h1 : 2 ^ (int_bits + frac_bits - 1) ≤ num) (h2 : num < 2 ^ (int_bits + frac_bits)) :
    hex_to_signed_fixed num int_bits frac_bits =
      ((num : ℚ) - ((2 ^ (int_bits + frac_bits) : ℕ) : ℚ)) / ((2 ^ frac_bits : ℕ) : ℚ) := by
  simp only [hex_to_signed_fixed]
  rw [Nat.mod_eq_of_lt h2, if_pos h1]
  push_cast
  ring

lemma float_to_signed_hex_exact (v : ℚ) (z : ℤ) (m n : ℕ)
    (hz : v * ((2 ^ n : ℕ) : ℚ) = (z : ℚ))
    (hlo : -(2 ^ (m + n - 1)) ≤ z) (hhi : z ≤ 2 ^ (m + n - 1) - 1) :
    float_to_signed_fixed_hex v m n = (z % (2 ^ (m + n) : ℤ)).toNat := by
  simp only [float_to_signed_fixed_hex]
  rw [hz, Int.floor_intCast, min_eq_left hhi, max_eq_left hlo]

lemma float_to_unsigned_hex_exact (v : ℚ) (z : ℤ) (m n : ℕ)
    (hz : v * ((2 ^ n : ℕ) : ℚ) = (z : ℚ))
    (hlo : 0 ≤ z) (hhi : z ≤ 2 ^ (m + n) - 1) :
    float_to_unsigned_fixed_hex v m n = z.toNat := by
  simp only [float_to_unsigned_fixed_hex]
  rw [hz, Int.floor_intCast, min_eq_left hhi, max_eq_left hlo]

end Adj

/-- C1: for every fixed-point format and every value `v` such that
`v * 2^frac_bits` is an integer `z` within the format's representable
range, decoding the result of encoding `v` returns exactly `v` — for the
signed codec when `z ∈ [-2^(W-1), 2^(W-1)-1]` and for the unsigned codec
when `z ∈ [0, 2^W - 1]`, where `W = int_bits + frac_bits`. -/
theorem C1_round_trip (m n : ℕ) (v : ℚ) (z : ℤ)
    (hz : v * ((2 ^ n : ℕ) : ℚ) = (z : ℚ)) (hW : 1 ≤ m + n) :
    ((-(2 ^ (m + n - 1)) ≤ z → z ≤ 2 ^ (m + n - 1) - 1 →
        Adj.hex_to_signed_fixed (Adj.float_to_signed_fixed_hex v m n) m n = v) ∧
      (0 ≤ z → z ≤ 2 ^ (m + n) - 1 →
        Adj.hex_to_unsigned_fixed (Adj.float_to_unsigned_fixed_hex v m n) m n = v)) := by
  have h2n : ((2 ^ n : ℕ) : ℚ) ≠ 0 := by positivity
  have hv : v = (z : ℚ) / ((2 ^ n : ℕ) : ℚ) := (eq_div_iff h2n).mpr hz
  have hMsplit : (2 : ℤ) ^ (m + n) = 2 ^ (m + n - 1) * 2 := by
    rw [← pow_succ]
    congr 1
    omega
  constructor
  · intro h1 h2
    rw [Adj.float_to_signed_hex_exact v z m n hz h1 h2]
    by_cases hz0 : 0 ≤ z
    · have hmod : z % (2 ^ (m + n) : ℤ) = z :=
        Int.emod_eq_of_lt hz0 (by omega)
      rw [hmod]
      rw [Adj.hex_to_signed_eval_low]
      · rw [hv]
        congr 1
        exact_mod_cast Int.toNat_of_nonneg hz0
      · have hcast : ((2 ^ (m + n - 1) : ℕ) : ℤ) = (2 : ℤ) ^ (m + n - 1) := by push_cast; rfl
        omega
    · push_neg at hz0
      have hmod : z % (2 ^ (m + n) : ℤ) = z + 2 ^ (m + n) := by
        have e2 : (z + 2 ^ (m + n) * 1) % (2 ^ (m + n) : ℤ) = z % (2 ^ (m + n) : ℤ) :=
          Int.add_mul_emod_self_left z (2 ^ (m + n)) 1
        have e3 : (z + 2 ^ (m + n)) % (2 ^ (m + n) : ℤ) = z + 2 ^ (m + n) :=
          Int.emod_eq_of_lt (by omega) (by omega)
        rw [show z + (2 : ℤ) ^ (m + n) = z + 2 ^ (m + n) * 1 by ring] at e3
        rw [e2] at e3
        rw [e3]
        ring
      rw [hmod]
      have hple : (2 : ℤ) ^ (m + n - 1) ≤ z + 2 ^ (m + n) := by omega
      have hplt : z + (2 : ℤ) ^ (m + n) < 2 ^ (m + n) := by omega
      have h0le : (0 : ℤ) ≤ z + 2 ^ (m + n) := by omega
      rw [Adj.hex_to_signed_eval_high]
      · rw [hv]
        congr 1
        have := Int.toNat_of_nonneg h0le
        have hcast : (((z + 2 ^ (m + n)).toNat : ℚ)) = ((z : ℚ) + ((2 ^ (m + n) : ℕ) : ℚ)) := by
          exact_mod_cast this
        rw [hcast]
        ring
      · have hcast : ((2 ^ (m + n - 1) : ℕ) : ℤ) = (2 : ℤ) ^ (m + n - 1) := by push_cast; rfl
        omega
      · have hcast : ((2 ^ (m + n) : ℕ) : ℤ) = (2 : ℤ) ^ (m + n) := by push_cast; rfl
        omega
  · intro h1 h2
    rw [Adj.float_to_unsigned_hex_exact v z m n hz h1 h2]
    rw [Adj.hex_to_unsigned_eval]
    · rw [hv]
      congr 1
      exact_mod_cast Int.toNat_of_nonneg h1
    · have hcast : ((2 ^ (m + n) : ℕ) : ℤ) = (2 : ℤ) ^ (m + n) := by push_cast; rfl
      omega

/-- C1 witness: the signed and unsigned round trips evaluated at the
concrete value 2.5 in the s4.2 and u4.2 formats (scaled integer 10). -/
theorem C1_round_trip_witness :
    Adj.hex_to_signed_fixed (Adj.float_to_signed_fixed_hex (5/2) 4 2) 4 2 = 5/2 ∧
      Adj.hex_to_unsigned_fixed (Adj.float_to_unsigned_fixed_hex (5/2) 4 2) 4 2 = 5/2 := by
  have h := C1_round_trip 4 2 (5/2) 10 (by norm_num) (by norm_num)
  have ha : -(2 : ℤ) ^ (4 + 2 - 1) ≤ 10 := by norm_num
  have hb : (10 : ℤ) ≤ 2 ^ (4 + 2 - 1) - 1 := by norm_num
  have hc : (0 : ℤ) ≤ 10 := by norm_num
  have hd : (10 : ℤ) ≤ 2 ^ (4 + 2) - 1 := by norm_num
  exact ⟨h.1 ha hb, h.2 hc hd⟩

namespace Adj

lemma cast_pow_q (k : ℕ) : ((2 ^ k : ℕ) : ℚ) = (2 : ℚ) ^ k := by
  push_cast
  ring

lemma cast_pow_z (k : ℕ) : ((2 ^ k : ℕ) : ℤ) = (2 : ℤ) ^ k := by
  push_cast
  ring

lemma float_to_unsigned_hex_above (m n : ℕ) (v : ℚ)
    (h : (((2 ^ (m + n) : ℕ) : ℚ) - 1) / ((2 ^ n : ℕ) : ℚ) < v) :
    float_to_unsigned_fixed_hex v m n = 2 ^ (m + n) - 1 := by
  have h2n : (0 : ℚ) < ((2 ^ n : ℕ) : ℚ) := by positivity
  have hsc : ((2 ^ (m + n) : ℕ) : ℚ) - 1 ≤ v * ((2 ^ n : ℕ) : ℚ) := by
    rw [div_lt_iff₀ h2n] at h
    linarith
  have hfle : ((2 : ℤ) ^ (m + n) - 1) ≤ ⌊v * ((2 ^ n : ℕ) : ℚ)⌋ := by
    apply Int.le_floor.mpr
    have e : (((2 : ℤ) ^ (m + n) - 1 : ℤ) : ℚ) = ((2 ^ (m + n) : ℕ) : ℚ) - 1 := by
      push_cast
      ring
    rw [e]
    exact hsc
  have hmax : (0 : ℤ) ≤ (2 : ℤ) ^ (m + n) - 1 := by
    have := pow_pos (show (0 : ℤ) < 2 by norm_num) (m + n)
    omega
  simp only [float_to_unsigned_fixed_hex]
  rw [min_eq_right hfle, max_eq_left hmax]
  have := cast_pow_z (m + n)
  omega

lemma float_to_unsigned_hex_below (m n : ℕ) (v : ℚ) (h : v < 0) :
    float_to_unsigned_fixed_hex v m n = 0 := by
  have h2n : (0 : ℚ) < ((2 ^ n : ℕ) : ℚ) := by positivity
  have hneg : v * ((2 ^ n : ℕ) : ℚ) < 0 := mul_neg_of_neg_of_pos h h2n
  have hflt : ⌊v * ((2 ^ n : ℕ) : ℚ)⌋ < 0 := by
    apply Int.floor_lt.mpr
    simpa using hneg
  simp only [float_to_unsigned_fixed_hex]
  rw [max_eq_right (le_of_lt (lt_of_le_of_lt (min_le_left _ _) hflt))]
  rfl

lemma float_to_signed_hex_above (m n : ℕ) (v : ℚ) (hW : 1 ≤ m + n)
    (h : (((2 ^ (m + n - 1) : ℕ) : ℚ) - 1) / ((2 ^ n : ℕ) : ℚ) < v) :
    float_to_signed_fixed_hex v m n = 2 ^ (m + n - 1) - 1 := by
  have h2n : (0 : ℚ) < ((2 ^ n : ℕ) : ℚ) := by positivity
  have hsc : ((2 ^ (m + n - 1) : ℕ) : ℚ) - 1 ≤ v * ((2 ^ n : ℕ) : ℚ) := by
    rw [div_lt_iff₀ h2n] at h
    linarith
  have hfle : ((2 : ℤ) ^ (m + n - 1) - 1) ≤ ⌊v * ((2 ^ n : ℕ) : ℚ)⌋ := by
    apply Int.le_floor.mpr
    have e : (((2 : ℤ) ^ (m + n - 1) - 1 : ℤ) : ℚ) = ((2 ^ (m + n - 1) : ℕ) : ℚ) - 1 := by
      push_cast
      ring
    rw [e]
    exact hsc
  have hminmax : -((2 : ℤ) ^ (m + n - 1)) ≤ (2 : ℤ) ^ (m + n - 1) - 1 := by
    have := pow_pos (show (0 : ℤ) < 2 by norm_num) (m + n - 1)
    omega
  have hMsplit : (2 : ℤ) ^ (m + n) = 2 ^ (m + n - 1) * 2 := by
    rw [← pow_succ]
    congr 1
    omega
  simp only [float_to_signed_fixed_hex]
  rw [min_eq_right hfle, max_eq_left hminmax]
  have hpos : (0 : ℤ) < (2 : ℤ) ^ (m + n - 1) := by positivity
  have hmod : ((2 : ℤ) ^ (m + n - 1) - 1) % (2 ^ (m + n) : ℤ) = (2 : ℤ) ^ (m + n - 1) - 1 :=
    Int.emod_eq_of_lt (by omega) (by omega)
  rw [hmod]
  have := cast_pow_z (m + n - 1)
  omega

lemma float_to_signed_hex_below (m n : ℕ) (v : ℚ) (hW : 1 ≤ m + n)
    (h : v < -(((2 ^ (m + n - 1) : ℕ) : ℚ)) / ((2 ^ n : ℕ) : ℚ)) :
    float_to_signed_fixed_hex v m n = 2 ^ (m + n - 1) := by
  have h2n : (0 : ℚ) < ((2 ^ n : ℕ) : ℚ) := by positivity
  have hsc : v * ((2 ^ n : ℕ) : ℚ) < -(((2 ^ (m + n - 1) : ℕ) : ℚ)) := by
    rw [lt_div_iff₀ h2n] at h
    linarith
  have hflt : ⌊v * ((2 ^ n : ℕ) : ℚ)⌋ < -((2 : ℤ) ^ (m + n - 1)) := by
    apply Int.floor_lt.mpr
    have e : ((-((2 : ℤ) ^ (m + n - 1)) : ℤ) : ℚ) = -(((2 ^ (m + n - 1) : ℕ) : ℚ)) := by
      push_cast
      ring
    rw [e]
    exact hsc
  have hMsplit : (2 : ℤ) ^ (m + n) = 2 ^ (m + n - 1) * 2 := by
    rw [← pow_succ]
    congr 1
    omega
  have hpos : (0 : ℤ) < (2 : ℤ) ^ (m + n - 1) := by positivity
  simp only [float_to_signed_fixed_hex]
  have hminle : min ⌊v * ((2 ^ n : ℕ) : ℚ)⌋ ((2 : ℤ) ^ (m + n - 1) - 1) ≤
      -((2 : ℤ) ^ (m + n - 1)) := le_trans (min_le_left _ _) (by omega)
  rw [max_eq_right hminle]
  have hmod : (-((2 : ℤ) ^ (m + n - 1))) % (2 ^ (m + n) : ℤ) = (2 : ℤ) ^ (m + n - 1) := by
    calc (-((2 : ℤ) ^ (m + n - 1))) % (2 ^ (m + n) : ℤ)
        = (-((2 : ℤ) ^ (m + n - 1)) + 2 ^ (m + n) * 1) % (2 ^ (m + n) : ℤ) :=
          (Int.add_mul_emod_self_left _ (2 ^ (m + n)) 1).symm
      _ = ((2 : ℤ) ^ (m + n - 1)) % (2 ^ (m + n) : ℤ) := by
          rw [show -((2 : ℤ) ^ (m + n - 1)) + 2 ^ (m + n) * 1 = (2 : ℤ) ^ (m + n - 1) by omega]
      _ = (2 : ℤ) ^ (m + n - 1) := Int.emod_eq_of_lt (by omega) (by omega)
  rw [hmod]
  have := cast_pow_z (m + n - 1)
  omega

end Adj

/-- C2: for every format, encoding a value above the representable
maximum yields the pattern that decodes back to that maximum, and
encoding below the minimum yields the pattern decoding to the minimum
(clamp-to-bound, no wraparound, no error); in particular for unsigned
int_bits = 12, frac_bits = 0, encoding 9999.0 yields the pattern 0xFFF
(hex "FFF"), which decodes to 4095.0. -/
theorem C2_saturation :
    (∀ m n : ℕ, ∀ v : ℚ,
      ((((2 ^ (m + n) : ℕ) : ℚ) - 1) / ((2 ^ n : ℕ) : ℚ) < v →
        Adj.hex_to_unsigned_fixed (Adj.float_to_unsigned_fixed_hex v m n) m n =
          (((2 ^ (m + n) : ℕ) : ℚ) - 1) / ((2 ^ n : ℕ) : ℚ)) ∧
      (v < 0 →
        Adj.hex_to_unsigned_fixed (Adj.float_to_unsigned_fixed_hex v m n) m n = 0) ∧
      (1 ≤ m + n →
        (((2 ^ (m + n - 1) : ℕ) : ℚ) - 1) / ((2 ^ n : ℕ) : ℚ) < v →
        Adj.hex_to_signed_fixed (Adj.float_to_signed_fixed_hex v m n) m n =
          (((2 ^ (m + n - 1) : ℕ) : ℚ) - 1) / ((2 ^ n : ℕ) : ℚ)) ∧
      (1 ≤ m + n →
        v < -(((2 ^ (m + n - 1) : ℕ) : ℚ)) / ((2 ^ n : ℕ) : ℚ) →
        Adj.hex_to_signed_fixed (Adj.float_to_signed_fixed_hex v m n) m n =
          -(((2 ^ (m + n - 1) : ℕ) : ℚ) / ((2 ^ n : ℕ) : ℚ)))) ∧
    Adj.float_to_unsigned_fixed_hex 9999 12 0 = 0xFFF ∧
    Adj.hex_to_unsigned_fixed 0xFFF 12 0 = 4095 := by
  refine ⟨fun m n v => ⟨?_, ?_, ?_, ?_⟩, ?_, ?_⟩
  · intro h
    rw [Adj.float_to_unsigned_hex_above m n v h]
    rw [Adj.hex_to_unsigned_eval _ _ _ (by
      have : 1 ≤ 2 ^ (m + n) := Nat.one_le_two_pow
      omega)]
    congr 1
    have : 1 ≤ 2 ^ (m + n) := Nat.one_le_two_pow
    push_cast [Nat.cast_sub this]
    ring
  · intro h
    rw [Adj.float_to_unsigned_hex_below m n v h]
    simp [Adj.hex_to_unsigned_fixed]
  · intro hW h
    rw [Adj.float_to_signed_hex_above m n v hW h]
    have hlt : 2 ^ (m + n - 1) - 1 < 2 ^ (m + n - 1) := by
      have : 1 ≤ 2 ^ (m + n - 1) := Nat.one_le_two_pow
      omega
    rw [Adj.hex_to_signed_eval_low _ _ _ hlt]
    congr 1
    have : 1 ≤ 2 ^ (m + n - 1) := Nat.one_le_two_pow
    push_cast [Nat.cast_sub this]
    ring
  · intro hW h
    rw [Adj.float_to_signed_hex_below m n v hW h]
    have hlt : 2 ^ (m + n - 1) < 2 ^ (m + n) :=
      Nat.pow_lt_pow_right (by norm_num) (by omega)
    rw [Adj.hex_to_signed_eval_high _ _ _ (le_refl _) hlt]
    have hsplit : (2 : ℚ) ^ (m + n) = 2 ^ (m + n - 1) * 2 := by
      rw [← pow_succ]
      congr 1
      omega
    have hpa : (2 : ℚ) ^ m * 2 ^ n = 2 ^ (m + n) := (pow_add 2 m n).symm
    rw [← neg_div]
    congr 1
    push_cast
    linarith [hsplit, hpa]
  · norm_num [Adj.float_to_unsigned_fixed_hex]
    rfl
  · norm_num [Adj.hex_to_unsigned_fixed]

/-- C2 witness: saturation evaluated concretely — encoding 9999.0 in the
u12.0 format decodes back to the maximum 4095, encoding -3 in u12.0
decodes to 0, encoding 100 in s3.1 decodes to the maximum 7.5, and
encoding -100 in s3.1 decodes to the minimum -8. -/
theorem C2_saturation_witness :
    Adj.hex_to_unsigned_fixed (Adj.float_to_unsigned_fixed_hex 9999 12 0) 12 0 = 4095 ∧
      Adj.hex_to_unsigned_fixed (Adj.float_to_unsigned_fixed_hex (-3) 12 0) 12 0 = 0 ∧
      Adj.hex_to_signed_fixed (Adj.float_to_signed_fixed_hex 100 3 1) 3 1 = 7/2 ∧
      Adj.hex_to_signed_fixed (Adj.float_to_signed_fixed_hex (-100) 3 1) 3 1 = -4 := by
  have h := C2_saturation.1
  refine ⟨?_, ?_, ?_, ?_⟩
  · have e := (h 12 0 9999).1 (by norm_num)
    rw [e]
    norm_num
  · exact (h 12 0 (-3)).2.1 (by norm_num)
  · have e := (h 3 1 100).2.2.1 (by norm_num) (by norm_num)
    rw [e]
    norm_num
  · have e := (h 3 1 (-100)).2.2.2 (by norm_num) (by norm_num)
    rw [e]
    norm_num
example : Adj.hex_to_unsigned_fixed 0xFFF 12 0 = 4095 := by
  norm_num [Adj.hex_to_unsigned_fixed]
example : Adj.hex_to_signed_fixed 0x800 12 0 = -2048 := by
  norm_num [Adj.hex_to_signed_fixed]
example : Adj.hex_to_unsigned_fixed 0x800 12 0 = 2048 := by
  norm_num [Adj.hex_to_unsigned_fixed]
example : Adj.float_to_signed_fixed_hex (-1) 20 10 = 0x3FFFFC00 := by
  norm_num [Adj.float_to_signed_fixed_hex]
  rfl
example : Adj.hex_to_signed_fixed 0x3FFFFC00 20 10 = -1 := by
  norm_num [Adj.hex_to_signed_fixed]
example : Adj.hex_to_signed_fixed 9600 20 6 = 150 := by
  norm_num [Adj.hex_to_signed_fixed]
example : pyRound (5/2) = 2 := by norm_num [pyRound]
example : pyRound (7/2) = 4 := by norm_num [pyRound]
example : pyRound (3/2) = 2 := by norm_num [pyRound]
example : pyRound (9/4) = 2 := by norm_num [pyRound]
example : pyTrunc (5/2) = 2 := by norm_num [pyTrunc]

namespace Adj

lemma minmax_le (t : ℕ) : -((2 : ℤ) ^ (t - 1)) ≤ (2 : ℤ) ^ (t - 1) - 1 := by
  have := pow_pos (show (0 : ℤ) < 2 by norm_num) (t - 1)
  omega

lemma float_to_signed_hex_quantized (x : ℚ) (m n : ℕ) :
    float_to_signed_fixed_hex (float_to_signed_fixed x m n) m n =
      float_to_signed_fixed_hex x m n := by
  have h2n : ((2 ^ n : ℕ) : ℚ) ≠ 0 := by positivity
  simp only [float_to_signed_fixed, float_to_signed_fixed_hex]
  rw [div_mul_cancel₀ _ h2n, Int.floor_intCast]
  congr 2
  have hS_le : min ⌊x * ((2 ^ n : ℕ) : ℚ)⌋ ((2 : ℤ) ^ (m + n - 1) - 1) ≤
      (2 : ℤ) ^ (m + n - 1) - 1 := min_le_right _ _
  have hle : max (min ⌊x * ((2 ^ n : ℕ) : ℚ)⌋ ((2 : ℤ) ^ (m + n - 1) - 1))
      (-((2 : ℤ) ^ (m + n - 1))) ≤ (2 : ℤ) ^ (m + n - 1) - 1 :=
    max_le hS_le (minmax_le (m + n))
  rw [min_eq_left hle, max_eq_left (le_max_right _ _)]

lemma hex_to_signed_mod (num m n : ℕ) :
    hex_to_signed_fixed num m n = hex_to_signed_fixed (num % 2 ^ (m + n)) m n := by
  simp only [hex_to_signed_fixed]
  rw [Nat.mod_mod_of_dvd num dvd_rfl]

lemma hex_to_signed_bounds (num m n : ℕ) (hW : 1 ≤ m + n) :
    -(((2 ^ (m + n - 1) : ℕ) : ℚ) / ((2 ^ n : ℕ) : ℚ)) ≤ hex_to_signed_fixed num m n ∧
      hex_to_signed_fixed num m n ≤
        (((2 ^ (m + n - 1) : ℕ) : ℚ) - 1) / ((2 ^ n : ℕ) : ℚ) := by
  have h2n : (0 : ℚ) < ((2 ^ n : ℕ) : ℚ) := by positivity
  have hklt : num % 2 ^ (m + n) < 2 ^ (m + n) := Nat.mod_lt _ (by positivity)
  have hsplit : (2 : ℕ) ^ (m + n) = 2 ^ (m + n - 1) * 2 := by
    rw [← pow_succ]
    congr 1
    omega
  rw [hex_to_signed_mod num m n]
  by_cases hc : 2 ^ (m + n - 1) ≤ num % 2 ^ (m + n)
  · rw [hex_to_signed_eval_high _ _ _ hc hklt]
    have hlo : ((2 ^ (m + n - 1) : ℕ) : ℚ) ≤ ((num % 2 ^ (m + n) : ℕ) : ℚ) :=
      Nat.cast_le.mpr hc
    have hhi : ((num % 2 ^ (m + n) : ℕ) : ℚ) ≤ ((2 ^ (m + n) : ℕ) : ℚ) - 1 := by
      have : ((num % 2 ^ (m + n) : ℕ) : ℚ) + 1 ≤ ((2 ^ (m + n) : ℕ) : ℚ) := by
        exact_mod_cast Nat.succ_le_of_lt hklt
      linarith
    have hcastsplit : ((2 ^ (m + n) : ℕ) : ℚ) = ((2 ^ (m + n - 1) : ℕ) : ℚ) * 2 := by
      exact_mod_cast congrArg (Nat.cast : ℕ → ℚ) hsplit
    constructor
    · rw [← neg_div]
      apply div_le_div_of_nonneg_right ?_ h2n.le
      linarith
    · apply div_le_div_of_nonneg_right ?_ h2n.le
      have hp : (0 : ℚ) < ((2 ^ (m + n - 1) : ℕ) : ℚ) := by positivity
      linarith
  · push_neg at hc
    rw [hex_to_signed_eval_low _ _ _ hc]
    have hub : ((num % 2 ^ (m + n) : ℕ) : ℚ) ≤ ((2 ^ (m + n - 1) : ℕ) : ℚ) - 1 := by
      have : ((num % 2 ^ (m + n) : ℕ) : ℚ) + 1 ≤ ((2 ^ (m + n - 1) : ℕ) : ℚ) := by
        exact_mod_cast Nat.succ_le_of_lt hc
      linarith
    constructor
    · have hnn : (0 : ℚ) ≤ ((num % 2 ^ (m + n) : ℕ) : ℚ) := by positivity
      have hbp : (0 : ℚ) ≤ ((2 ^ (m + n - 1) : ℕ) : ℚ) / ((2 ^ n : ℕ) : ℚ) := by positivity
      have : (0 : ℚ) ≤ ((num % 2 ^ (m + n) : ℕ) : ℚ) / ((2 ^ n : ℕ) : ℚ) := by positivity
      linarith
    · exact div_le_div_of_nonneg_right hub h2n.le

end Adj

/-- C8: with clamping disabled, the output-correction stage's final
output is exactly with_offset re-encoded to the signed 7.4 final format
(saturating), and its decoded value always lies within
[-64, 63.9375] for every pi_sum, gain and offset input. -/
theorem C8_correct_no_clamp (pi_result_hex k2_hex offset_hex clp_pos_hex clp_neg_hex : ℕ) :
    (Adj.correct_algorithm pi_result_hex k2_hex offset_hex clp_pos_hex clp_neg_hex false).2 =
      Adj.float_to_signed_fixed_hex
        (Adj.float_to_signed_fixed
          (Adj.float_to_signed_fixed
            (Adj.hex_to_signed_fixed pi_result_hex 20 10 *
              Adj.hex_to_unsigned_fixed k2_hex 6 6) 27 5 +
            Adj.hex_to_signed_fixed offset_hex 7 4) 28 4) 7 4 ∧
      -64 ≤ Adj.hex_to_signed_fixed
          (Adj.correct_algorithm pi_result_hex k2_hex offset_hex clp_pos_hex clp_neg_hex
            false).2 7 4 ∧
      Adj.hex_to_signed_fixed
          (Adj.correct_algorithm pi_result_hex k2_hex offset_hex clp_pos_hex clp_neg_hex
            false).2 7 4 ≤ 1023 / 16 := by
  have hform :
      (Adj.correct_algorithm pi_result_hex k2_hex offset_hex clp_pos_hex clp_neg_hex false).2 =
        Adj.float_to_signed_fixed_hex
          (Adj.float_to_signed_fixed
            (Adj.float_to_signed_fixed
              (Adj.hex_to_signed_fixed pi_result_hex 20 10 *
                Adj.hex_to_unsigned_fixed k2_hex 6 6) 27 5 +
              Adj.hex_to_signed_fixed offset_hex 7 4) 28 4) 7 4 := by
    simp only [Adj.correct_algorithm, Bool.false_eq_true, if_false]
    rw [Adj.float_to_signed_hex_quantized]
  refine ⟨hform, ?_, ?_⟩
  · have h := (Adj.hex_to_signed_bounds
      (Adj.correct_algorithm pi_result_hex k2_hex offset_hex clp_pos_hex clp_neg_hex false).2
      7 4 (by norm_num)).1
    have e : -(((2 ^ (7 + 4 - 1) : ℕ) : ℚ) / ((2 ^ 4 : ℕ) : ℚ)) = -64 := by norm_num
    rw [e] at h
    exact h
  · have h := (Adj.hex_to_signed_bounds
      (Adj.correct_algorithm pi_result_hex k2_hex offset_hex clp_pos_hex clp_neg_hex false).2
      7 4 (by norm_num)).2
    have e : (((2 ^ (7 + 4 - 1) : ℕ) : ℚ) - 1) / ((2 ^ 4 : ℕ) : ℚ) = 1023 / 16 := by norm_num
    rw [e] at h
    exact h

namespace Adj

lemma pi_process_preserves (s : PIProcessor) (e : ℕ) :
    (s.pi_process e).1.i_clp_pos = s.i_clp_pos ∧
      (s.pi_process e).1.i_clp_neg = s.i_clp_neg ∧
      (s.pi_process e).1.clp_en = s.clp_en :=
  ⟨rfl, rfl, rfl⟩

lemma pi_process_last_eq (s : PIProcessor) (e : ℕ) :
    (s.pi_process e).1.result_i_last = (s.pi_process e).1.result_i :=
  rfl

lemma pi_process_clamp_bounds (s : PIProcessor) (e : ℕ) (hclp : s.clp_en = true)
    (hle : s.i_clp_neg ≤ s.i_clp_pos) :
    s.i_clp_neg ≤ (s.pi_process e).1.result_i ∧
      (s.pi_process e).1.result_i ≤ s.i_clp_pos := by
  simp only [PIProcessor.pi_process, hclp, if_true]
  constructor <;> · split_ifs <;> linarith

lemma pi_run_clamp_bounds (l : List ℕ) (s : PIProcessor) (hne : l ≠ [])
    (hclp : s.clp_en = true) (hle : s.i_clp_neg ≤ s.i_clp_pos) :
    (s.i_clp_neg ≤ (s.pi_run l).result_i ∧ (s.pi_run l).result_i ≤ s.i_clp_pos) ∧
      (s.i_clp_neg ≤ (s.pi_run l).result_i_last ∧
        (s.pi_run l).result_i_last ≤ s.i_clp_pos) := by
  induction l generalizing s with
  | nil => exact absurd rfl hne
  | cons e l ih =>
    cases l with
    | nil =>
      have h := pi_process_clamp_bounds s e hclp hle
      have hl : (s.pi_process e).1.result_i_last = (s.pi_process e).1.result_i :=
        pi_process_last_eq s e
      have hrun : s.pi_run [e] = (s.pi_process e).1 := rfl
      rw [hrun, hl]
      exact ⟨⟨h.1, h.2⟩, h.1, h.2⟩
    | cons f l2 =>
      have hpre := pi_process_preserves s e
      have hrun : s.pi_run (e :: f :: l2) = ((s.pi_process e).1).pi_run (f :: l2) := rfl
      have h := ih (s.pi_process e).1 (by simp)
        (by rw [hpre.2.2]; exact hclp)
        (by rw [hpre.1, hpre.2.1]; exact hle)
      rw [hpre.1, hpre.2.1] at h
      rw [hrun]
      exact h

end Adj

/-- C3: for every PI configuration with clamping enabled and
i_clp_neg ≤ i_clp_pos, after any nonempty sequence of pi_process calls
starting from the freshly constructed state, the stored integral
result_i and the accumulator result_i_last both lie within
[i_clp_neg, i_clp_pos] (in particular, with bounds [-1, 1] the integral
never exceeds 1). -/
theorem C3_anti_windup (kp1_hex kp1_th_hex kp2_hex kp2_th_hex
    ki1_hex ki1_th_hex ki2_hex ki2_th_hex i_clp_pos_hex i_clp_neg_hex : ℕ)
    (errors : List ℕ) (hne : errors ≠ [])
    (hle : Adj.hex_to_signed_fixed i_clp_neg_hex 20 10 ≤
      Adj.hex_to_signed_fixed i_clp_pos_hex 20 10) :
    (Adj.hex_to_signed_fixed i_clp_neg_hex 20 10 ≤
        ((Adj.PIProcessor.create kp1_hex kp1_th_hex kp2_hex kp2_th_hex
          ki1_hex ki1_th_hex ki2_hex ki2_th_hex i_clp_pos_hex i_clp_neg_hex
          true).pi_run errors).result_i ∧
      ((Adj.PIProcessor.create kp1_hex kp1_th_hex kp2_hex kp2_th_hex
          ki1_hex ki1_th_hex ki2_hex ki2_th_hex i_clp_pos_hex i_clp_neg_hex
          true).pi_run errors).result_i ≤
        Adj.hex_to_signed_fixed i_clp_pos_hex 20 10) ∧
    (Adj.hex_to_signed_fixed i_clp_neg_hex 20 10 ≤
        ((Adj.PIProcessor.create kp1_hex kp1_th_hex kp2_hex kp2_th_hex
          ki1_hex ki1_th_hex ki2_hex ki2_th_hex i_clp_pos_hex i_clp_neg_hex
          true).pi_run errors).result_i_last ∧
      ((Adj.PIProcessor.create kp1_hex kp1_th_hex kp2_hex kp2_th_hex
          ki1_hex ki1_th_hex ki2_hex ki2_th_hex i_clp_pos_hex i_clp_neg_hex
          true).pi_run errors).result_i_last ≤
        Adj.hex_to_signed_fixed i_clp_pos_hex 20 10) :=
  Adj.pi_run_clamp_bounds errors
    (Adj.PIProcessor.create kp1_hex kp1_th_hex kp2_hex kp2_th_hex
      ki1_hex ki1_th_hex ki2_hex ki2_th_hex i_clp_pos_hex i_clp_neg_hex true)
    hne rfl hle

/-- C3 witness: a concrete clamped PI configuration with bounds
[-1.0, 1.0] (hex 0x00000400 and 0x3FFFFC00 in s19.10) run on three large
error samples keeps the integral inside the bounds. -/
theorem C3_anti_windup_witness :
    ((-1 : ℚ) ≤ ((Adj.PIProcessor.create 0x3FF 0 0x3FF 0x10 0x3FF 0 0x3FF 0x10
        0x400 0x3FFFFC00 true).pi_run [0x4000, 0x4000, 0x4000]).result_i ∧
      ((Adj.PIProcessor.create 0x3FF 0 0x3FF 0x10 0x3FF 0 0x3FF 0x10
        0x400 0x3FFFFC00 true).pi_run [0x4000, 0x4000, 0x4000]).result_i ≤ 1) ∧
    ((-1 : ℚ) ≤ ((Adj.PIProcessor.create 0x3FF 0 0x3FF 0x10 0x3FF 0 0x3FF 0x10
        0x400 0x3FFFFC00 true).pi_run [0x4000, 0x4000, 0x4000]).result_i_last ∧
      ((Adj.PIProcessor.create 0x3FF 0 0x3FF 0x10 0x3FF 0 0x3FF 0x10
        0x400 0x3FFFFC00 true).pi_run [0x4000, 0x4000, 0x4000]).result_i_last ≤ 1) := by
  have e1 : Adj.hex_to_signed_fixed 0x3FFFFC00 20 10 = -1 := by
    norm_num [Adj.hex_to_signed_fixed]
  have e2 : Adj.hex_to_signed_fixed 0x400 20 10 = 1 := by
    norm_num [Adj.hex_to_signed_fixed]
  have h := C3_anti_windup 0x3FF 0 0x3FF 0x10 0x3FF 0 0x3FF 0x10 0x400 0x3FFFFC00
    [0x4000, 0x4000, 0x4000] (by simp) (by rw [e1, e2]; norm_num)
  rw [e1, e2] at h
  exact h

namespace Adj

lemma process_data_th (s : NContinuousProcessor) (e : ℕ) :
    (s.process_data e).1.th_pos = s.th_pos ∧ (s.process_data e).1.th_neg = s.th_neg ∧
      (s.process_data e).1.th_num_pos = s.th_num_pos ∧
      (s.process_data e).1.th_num_neg = s.th_num_neg := by
  simp only [NContinuousProcessor.process_data]
  split_ifs <;> exact ⟨rfl, rfl, rfl, rfl⟩

lemma process_data_inv (s : NContinuousProcessor) (e : ℕ)
    (h1 : 0 ≤ s.current_pos) (h2 : 0 ≤ s.current_neg)
    (h3 : s.current_pos ≤ s.th_num_pos + 1) (h4 : s.current_neg ≤ s.th_num_neg + 1)
    (h5 : s.state = false → s.current_pos ≤ s.th_num_pos)
    (hp : 0 ≤ s.th_num_pos) (hq : 0 ≤ s.th_num_neg) :
    0 ≤ (s.process_data e).1.current_pos ∧ 0 ≤ (s.process_data e).1.current_neg ∧
      (s.process_data e).1.current_pos ≤ s.th_num_pos + 1 ∧
      (s.process_data e).1.current_neg ≤ s.th_num_neg + 1 ∧
      ((s.process_data e).1.state = false → (s.process_data e).1.current_pos ≤ s.th_num_pos) := by
  simp only [NContinuousProcessor.process_data]
  split_ifs <;> simp_all <;> (repeat' apply And.intro) <;> linarith

end Adj

namespace Adj

lemma hex_to_unsigned_nonneg (num m n : ℕ) : 0 ≤ hex_to_unsigned_fixed num m n := by
  simp only [hex_to_unsigned_fixed]
  positivity

lemma hex_to_unsigned_u5_le (num : ℕ) : hex_to_unsigned_fixed num 5 0 ≤ 31 := by
  simp only [hex_to_unsigned_fixed]
  norm_num
  exact_mod_cast (by omega : num % 32 ≤ 31)

lemma run_th (samples : List ℕ) (s : NContinuousProcessor) :
    (s.run samples).th_pos = s.th_pos ∧ (s.run samples).th_neg = s.th_neg ∧
      (s.run samples).th_num_pos = s.th_num_pos ∧
      (s.run samples).th_num_neg = s.th_num_neg := by
  induction samples generalizing s with
  | nil => exact ⟨rfl, rfl, rfl, rfl⟩
  | cons e l ih =>
    have hth := process_data_th s e
    have hrun : s.run (e :: l) = ((s.process_data e).1).run l := rfl
    rw [hrun]
    have h := ih (s.process_data e).1
    exact ⟨h.1.trans hth.1, h.2.1.trans hth.2.1, h.2.2.1.trans hth.2.2.1,
      h.2.2.2.trans hth.2.2.2⟩

lemma run_inv (samples : List ℕ) (s : NContinuousProcessor)
    (h1 : 0 ≤ s.current_pos) (h2 : 0 ≤ s.current_neg)
    (h3 : s.current_pos ≤ s.th_num_pos + 1) (h4 : s.current_neg ≤ s.th_num_neg + 1)
    (h5 : s.state = false → s.current_pos ≤ s.th_num_pos)
    (hp : 0 ≤ s.th_num_pos) (hq : 0 ≤ s.th_num_neg) :
    0 ≤ (s.run samples).current_pos ∧ 0 ≤ (s.run samples).current_neg ∧
      (s.run samples).current_pos ≤ s.th_num_pos + 1 ∧
      (s.run samples).current_neg ≤ s.th_num_neg + 1 := by
  induction samples generalizing s with
  | nil => exact ⟨h1, h2, h3, h4⟩
  | cons e l ih =>
    have hth := process_data_th s e
    have hstep := process_data_inv s e h1 h2 h3 h4 h5 hp hq
    have hrun : s.run (e :: l) = ((s.process_data e).1).run l := rfl
    rw [hrun]
    have h := ih (s.process_data e).1 hstep.1 hstep.2.1
      (by rw [hth.2.2.1]; exact hstep.2.2.1)
      (by rw [hth.2.2.2]; exact hstep.2.2.2.1)
      (by intro hf; rw [hth.2.2.1]; exact hstep.2.2.2.2 hf)
      (by rw [hth.2.2.1]; exact hp)
      (by rw [hth.2.2.2]; exact hq)
    rw [hth.2.2.1, hth.2.2.2] at h
    exact h

lemma process_data_pos_no_latch (s : NContinuousProcessor) (e : ℕ)
    (hstate : s.state = true) (hgt : s.th_pos < hex_to_signed_fixed e 20 6)
    (hlatch : s.current_pos + 1 ≤ s.th_num_pos) :
    (s.process_data e).1.current_pos = s.current_pos + 1 ∧
      (s.process_data e).1.state = true := by
  simp only [NContinuousProcessor.process_data]
  split_ifs <;> simp_all <;> (repeat' apply And.intro) <;> linarith

lemma process_data_pos_latch (s : NContinuousProcessor) (e : ℕ)
    (hstate : s.state = true) (hgt : s.th_pos < hex_to_signed_fixed e 20 6)
    (hlatch : s.th_num_pos < s.current_pos + 1) :
    (s.process_data e).1.current_pos = s.th_num_pos + 1 ∧
      (s.process_data e).1.state = true ∧
      (s.process_data e).1.state_out = true ∧
      (s.process_data e).1.data = hex_to_signed_fixed e 20 6 := by
  simp only [NContinuousProcessor.process_data]
  split_ifs <;> simp_all <;> (repeat' apply And.intro) <;> linarith


lemma run_append_single (s : NContinuousProcessor) (l : List ℕ) (e : ℕ) :
    s.run (l ++ [e]) = ((s.run l).process_data e).1 := by
  simp [NContinuousProcessor.run, List.foldl_append]

lemma decode_x40 : hex_to_signed_fixed 0x40 20 6 = 1 := by
  norm_num [hex_to_signed_fixed]

lemma decode_zero_s20 : hex_to_signed_fixed 0 20 0 = 0 := by
  norm_num [hex_to_signed_fixed]

lemma decode_x1F_u5 : hex_to_unsigned_fixed 0x1F 5 0 = 31 := by
  norm_num [hex_to_unsigned_fixed]

lemma pos_run_counts : ∀ k : ℕ, k ≤ 31 →
    ((NContinuousProcessor.create 0 0 0x1F 2).run (List.replicate k 0x40)).current_pos =
        (k : ℚ) ∧
      ((NContinuousProcessor.create 0 0 0x1F 2).run (List.replicate k 0x40)).state = true := by
  intro k
  induction k with
  | zero =>
    intro _
    exact ⟨by norm_num [NContinuousProcessor.run, NContinuousProcessor.create], rfl⟩
  | succ k ih =>
    intro hk
    obtain ⟨hcp, hst⟩ := ih (by omega)
    have hth := run_th (List.replicate k 0x40) (NContinuousProcessor.create 0 0 0x1F 2)
    have hthp : ((NContinuousProcessor.create 0 0 0x1F 2).run
        (List.replicate k 0x40)).th_pos = 0 := by
      rw [hth.1]
      exact decode_zero_s20
    have hthn : ((NContinuousProcessor.create 0 0 0x1F 2).run
        (List.replicate k 0x40)).th_num_pos = 31 := by
      rw [hth.2.2.1]
      exact decode_x1F_u5
    have hstep := process_data_pos_no_latch
      ((NContinuousProcessor.create 0 0 0x1F 2).run (List.replicate k 0x40)) 0x40
      hst (by rw [hthp, decode_x40]; norm_num)
      (by
        rw [hcp, hthn]
        have hk30 : (k : ℚ) ≤ 30 := by exact_mod_cast (by omega : k ≤ 30)
        linarith)
    rw [List.replicate_succ' k 0x40, run_append_single]
    refine ⟨?_, hstep.2⟩
    rw [hstep.1, hcp]
    push_cast
    ring

end Adj

/-- C6 counterexample: with trigger count th_num_pos = 31 (hex 0x1F) and
threshold th_pos = 0, feeding 32 consecutive samples of value 1
(hex 0x40 in s19.6) drives current_pos to 32, exceeding the claimed
bound of 31. -/
theorem C6_counterexample :
    ((Adj.NContinuousProcessor.create 0 0 0x1F 2).run
        (List.replicate 32 0x40)).current_pos = 32 ∧
      ¬ ((Adj.NContinuousProcessor.create 0 0 0x1F 2).run
        (List.replicate 32 0x40)).current_pos ≤ 31 := by
  obtain ⟨hcp, hst⟩ := Adj.pos_run_counts 31 (le_refl 31)
  have hth := Adj.run_th (List.replicate 31 0x40) (Adj.NContinuousProcessor.create 0 0 0x1F 2)
  have hthp : ((Adj.NContinuousProcessor.create 0 0 0x1F 2).run
      (List.replicate 31 0x40)).th_pos = 0 := by
    rw [hth.1]
    exact Adj.decode_zero_s20
  have hthn : ((Adj.NContinuousProcessor.create 0 0 0x1F 2).run
      (List.replicate 31 0x40)).th_num_pos = 31 := by
    rw [hth.2.2.1]
    exact Adj.decode_x1F_u5
  have hstep := Adj.process_data_pos_latch
    ((Adj.NContinuousProcessor.create 0 0 0x1F 2).run (List.replicate 31 0x40)) 0x40
    hst (by rw [hthp, Adj.decode_x40]; norm_num)
    (by rw [hcp, hthn]; norm_num)
  have h32 : (List.replicate 32 0x40 : List ℕ) = List.replicate 31 0x40 ++ [0x40] :=
    List.replicate_succ' 31 0x40
  rw [h32, Adj.run_append_single, hstep.1, hthn]
  norm_num

/-- C6 (amended): after every process_data call from the freshly
constructed detector, current_pos stays in [0, th_num_pos + 1] and
current_neg stays in [0, th_num_neg + 1]; since the trigger counts
decode to at most 31, the counters never exceed 32 (not 31: the
saturation point is th_num + 1, which is 32 when th_num = 31). -/
theorem C6_count_bounds_amended (th_pos_hex th_neg_hex th_num_pos_hex th_num_neg_hex : ℕ)
    (samples : List ℕ) :
    0 ≤ ((Adj.NContinuousProcessor.create th_pos_hex th_neg_hex th_num_pos_hex
        th_num_neg_hex).run samples).current_pos ∧
      0 ≤ ((Adj.NContinuousProcessor.create th_pos_hex th_neg_hex th_num_pos_hex
        th_num_neg_hex).run samples).current_neg ∧
      ((Adj.NContinuousProcessor.create th_pos_hex th_neg_hex th_num_pos_hex
        th_num_neg_hex).run samples).current_pos ≤
        (Adj.NContinuousProcessor.create th_pos_hex th_neg_hex th_num_pos_hex
          th_num_neg_hex).th_num_pos + 1 ∧
      ((Adj.NContinuousProcessor.create th_pos_hex th_neg_hex th_num_pos_hex
        th_num_neg_hex).run samples).current_neg ≤
        (Adj.NContinuousProcessor.create th_pos_hex th_neg_hex th_num_pos_hex
          th_num_neg_hex).th_num_neg + 1 ∧
      ((Adj.NContinuousProcessor.create th_pos_hex th_neg_hex th_num_pos_hex
        th_num_neg_hex).run samples).current_pos ≤ 32 ∧
      ((Adj.NContinuousProcessor.create th_pos_hex th_neg_hex th_num_pos_hex
        th_num_neg_hex).run samples).current_neg ≤ 32 := by
  have hp : 0 ≤ (Adj.NContinuousProcessor.create th_pos_hex th_neg_hex th_num_pos_hex
      th_num_neg_hex).th_num_pos := Adj.hex_to_unsigned_nonneg th_num_pos_hex 5 0
  have hq : 0 ≤ (Adj.NContinuousProcessor.create th_pos_hex th_neg_hex th_num_pos_hex
      th_num_neg_hex).th_num_neg := Adj.hex_to_unsigned_nonneg th_num_neg_hex 5 0
  have hple : (Adj.NContinuousProcessor.create th_pos_hex th_neg_hex th_num_pos_hex
      th_num_neg_hex).th_num_pos ≤ 31 := Adj.hex_to_unsigned_u5_le th_num_pos_hex
  have hqle : (Adj.NContinuousProcessor.create th_pos_hex th_neg_hex th_num_pos_hex
      th_num_neg_hex).th_num_neg ≤ 31 := Adj.hex_to_unsigned_u5_le th_num_neg_hex
  have h := Adj.run_inv samples
    (Adj.NContinuousProcessor.create th_pos_hex th_neg_hex th_num_pos_hex th_num_neg_hex)
    (le_refl 0) (le_refl 0)
    (by
      have e : (Adj.NContinuousProcessor.create th_pos_hex th_neg_hex th_num_pos_hex
        th_num_neg_hex).current_pos = 0 := rfl
      rw [e]
      linarith)
    (by
      have e : (Adj.NContinuousProcessor.create th_pos_hex th_neg_hex th_num_pos_hex
        th_num_neg_hex).current_neg = 0 := rfl
      rw [e]
      linarith)
    (by intro hfalse; exact absurd hfalse (by simp [Adj.NContinuousProcessor.create]))
    hp hq
  exact ⟨h.1, h.2.1, h.2.2.1, h.2.2.2, by linarith [h.2.2.1], by linarith [h.2.2.2]⟩

namespace Adj

lemma decode_9600 : hex_to_signed_fixed 9600 20 6 = 150 := by
  norm_num [hex_to_signed_fixed]

lemma decode_100_s20 : hex_to_signed_fixed 100 20 0 = 100 := by
  norm_num [hex_to_signed_fixed]

lemma decode_2_u5 : hex_to_unsigned_fixed 2 5 0 = 2 := by
  norm_num [hex_to_unsigned_fixed]

end Adj

/-- C4: with th_pos = 100 (hex 0x64 in s19.0) and th_num_pos = 2, for any
negative-side configuration, feeding three samples of value 150
(hex 9600 in s19.6) to a fresh detector yields count_pos 1, 2 and 3, and
the positive latch (count clamped to 3, sample 150 latched, positive
sign latched) fires exactly on the third call. -/
theorem C4_latch_sequence (th_neg_hex th_num_neg_hex : ℕ) :
    ((Adj.NContinuousProcessor.create 100 th_neg_hex 2 th_num_neg_hex).process_data
        9600).1.current_pos = 1 ∧
      ((((Adj.NContinuousProcessor.create 100 th_neg_hex 2 th_num_neg_hex).process_data
        9600).1).process_data 9600).1.current_pos = 2 ∧
      ((((((Adj.NContinuousProcessor.create 100 th_neg_hex 2 th_num_neg_hex).process_data
        9600).1).process_data 9600).1).process_data 9600).1.current_pos = 3 ∧
      ((((((Adj.NContinuousProcessor.create 100 th_neg_hex 2 th_num_neg_hex).process_data
        9600).1).process_data 9600).1).process_data 9600).1.state_out = true ∧
      ((((((Adj.NContinuousProcessor.create 100 th_neg_hex 2 th_num_neg_hex).process_data
        9600).1).process_data 9600).1).process_data 9600).1.data = 150 := by
  have hth0p : (Adj.NContinuousProcessor.create 100 th_neg_hex 2 th_num_neg_hex).th_pos =
      100 := Adj.decode_100_s20
  have hth0n : (Adj.NContinuousProcessor.create 100 th_neg_hex 2 th_num_neg_hex).th_num_pos =
      2 := Adj.decode_2_u5
  have hcp0 : (Adj.NContinuousProcessor.create 100 th_neg_hex 2 th_num_neg_hex).current_pos =
      0 := rfl
  have hst0 : (Adj.NContinuousProcessor.create 100 th_neg_hex 2 th_num_neg_hex).state =
      true := rfl
  have h1 := Adj.process_data_pos_no_latch
    (Adj.NContinuousProcessor.create 100 th_neg_hex 2 th_num_neg_hex) 9600 hst0
    (by rw [hth0p, Adj.decode_9600]; norm_num)
    (by rw [hcp0, hth0n]; norm_num)
  rw [hcp0] at h1
  have hth1 := Adj.process_data_th
    (Adj.NContinuousProcessor.create 100 th_neg_hex 2 th_num_neg_hex) 9600
  have h2 := Adj.process_data_pos_no_latch
    ((Adj.NContinuousProcessor.create 100 th_neg_hex 2 th_num_neg_hex).process_data 9600).1
    9600 h1.2
    (by rw [hth1.1, hth0p, Adj.decode_9600]; norm_num)
    (by rw [h1.1, hth1.2.2.1, hth0n]; norm_num)
  rw [h1.1] at h2
  have hth2 := Adj.process_data_th
    ((Adj.NContinuousProcessor.create 100 th_neg_hex 2 th_num_neg_hex).process_data 9600).1
    9600
  have h3 := Adj.process_data_pos_latch
    ((((Adj.NContinuousProcessor.create 100 th_neg_hex 2 th_num_neg_hex).process_data
      9600).1).process_data 9600).1 9600 h2.2
    (by rw [hth2.1, hth1.1, hth0p, Adj.decode_9600]; norm_num)
    (by rw [h2.1, hth2.2.2.1, hth1.2.2.1, hth0n]; norm_num)
  rw [hth2.2.2.1, hth1.2.2.1, hth0n] at h3
  refine ⟨by rw [h1.1]; norm_num, by rw [h2.1]; norm_num, by rw [h3.1]; norm_num,
    h3.2.2.1, by rw [h3.2.2.2, Adj.decode_9600]⟩

/-- C5 (amended): for every detector state whose decoded trigger counts
satisfy th_num_pos ≥ 0 and th_num_neg ≥ 1, a sample strictly between
th_neg and th_pos resets both counters to 0 and leaves the latched
fields (state_out, data) and the tracking state unchanged.  (With
th_num_neg = 0 the negative latch fires even on in-band samples, so the
original claim fails there.) -/
theorem C5_inband_frame_amended (s : Adj.NContinuousProcessor) (e : ℕ)
    (hp : 0 ≤ s.th_num_pos) (hq : 0 < s.th_num_neg)
    (hlo : s.th_neg < Adj.hex_to_signed_fixed e 20 6)
    (hhi : Adj.hex_to_signed_fixed e 20 6 < s.th_pos) :
    (s.process_data e).1.current_pos = 0 ∧ (s.process_data e).1.current_neg = 0 ∧
      (s.process_data e).1.state_out = s.state_out ∧
      (s.process_data e).1.data = s.data ∧
      (s.process_data e).1.state = s.state := by
  simp only [Adj.NContinuousProcessor.process_data]
  split_ifs <;> simp_all <;> (repeat' apply And.intro) <;> linarith

/-- C5 witness: the amended in-band frame property at a concrete
detector (th_pos = 100, th_neg = -100 as hex 0xFFF9C in s19.0, both
trigger counts 2) and the in-band sample 0. -/
theorem C5_inband_frame_witness :
    ((Adj.NContinuousProcessor.create 100 1048476 2 2).process_data 0).1.current_pos = 0 ∧
      ((Adj.NContinuousProcessor.create 100 1048476 2 2).process_data 0).1.current_neg = 0 ∧
      ((Adj.NContinuousProcessor.create 100 1048476 2 2).process_data 0).1.state_out =
        (Adj.NContinuousProcessor.create 100 1048476 2 2).state_out ∧
      ((Adj.NContinuousProcessor.create 100 1048476 2 2).process_data 0).1.data =
        (Adj.NContinuousProcessor.create 100 1048476 2 2).data ∧
      ((Adj.NContinuousProcessor.create 100 1048476 2 2).process_data 0).1.state =
        (Adj.NContinuousProcessor.create 100 1048476 2 2).state := by
  have hn : (Adj.NContinuousProcessor.create 100 1048476 2 2).th_neg = -100 := by
    norm_num [Adj.NContinuousProcessor.create, Adj.hex_to_signed_fixed]
  have hpos : (Adj.NContinuousProcessor.create 100 1048476 2 2).th_pos = 100 :=
    Adj.decode_100_s20
  have hcnt : (Adj.NContinuousProcessor.create 100 1048476 2 2).th_num_pos = 2 :=
    Adj.decode_2_u5
  have hcnt2 : (Adj.NContinuousProcessor.create 100 1048476 2 2).th_num_neg = 2 :=
    Adj.decode_2_u5
  have hdec : Adj.hex_to_signed_fixed 0 20 6 = 0 := by
    norm_num [Adj.hex_to_signed_fixed]
  exact C5_inband_frame_amended (Adj.NContinuousProcessor.create 100 1048476 2 2) 0
    (by rw [hcnt]; norm_num) (by rw [hcnt2]; norm_num)
    (by rw [hn, hdec]; norm_num) (by rw [hpos, hdec]; norm_num)

/-- C5 counterexample: with th_num_neg = 0 the in-band sample 0 (between
th_neg = -100 and th_pos = 100) does not leave the latch unchanged on a
fresh detector: count_neg becomes 1 (not 0) and state_out flips from
true to false. -/
theorem C5_counterexample :
    ((Adj.NContinuousProcessor.create 100 1048476 2 0).process_data 0).1.current_neg = 1 ∧
      ((Adj.NContinuousProcessor.create 100 1048476 2 0).process_data 0).1.state_out =
        false ∧
      (Adj.NContinuousProcessor.create 100 1048476 2 0).state_out = true ∧
      ((1 : ℚ) ≠ 0) := by
  refine ⟨?_, ?_, rfl, by norm_num⟩
  · norm_num [Adj.NContinuousProcessor.create, Adj.NContinuousProcessor.process_data,
      Adj.hex_to_signed_fixed, Adj.hex_to_unsigned_fixed]
  · norm_num [Adj.NContinuousProcessor.create, Adj.NContinuousProcessor.process_data,
      Adj.hex_to_signed_fixed, Adj.hex_to_unsigned_fixed]

lemma pyRound_half (z : ℤ) : pyRound ((z : ℚ) + 1/2) = if z % 2 = 0 then z else z + 1 := by
  have hfl : ⌊(z : ℚ) + 1/2⌋ = z := by
    rw [Int.floor_int_add]
    norm_num
  unfold pyRound
  rw [hfl]
  norm_num

namespace Analog

lemma analog_decodeU_eq : Analog.hex_to_unsigned_fixed = Adj.hex_to_unsigned_fixed := rfl

lemma analog_decode_nonneg (num m n : ℕ) : 0 ≤ hex_to_unsigned_fixed num m n := by
  rw [analog_decodeU_eq]
  exact Adj.hex_to_unsigned_nonneg num m n

lemma hex_to_unsigned_u012_lt_one (num : ℕ) : hex_to_unsigned_fixed num 0 12 < 1 := by
  simp only [hex_to_unsigned_fixed]
  rw [div_lt_one (by positivity)]
  have h : num % 2 ^ (0 + 12) < 2 ^ (0 + 12) := Nat.mod_lt _ (by positivity)
  exact_mod_cast h

end Analog

/-- C7 counterexample: the rounding-mode encoder is not
round-half-away-from-zero — encoding the value 2.5 in the u4.0 format
(scaled value 2.5) yields 2, not the 3 the claim requires. -/
theorem C7_counterexample :
    Analog.float_to_unsigned_fixed_hex_round (5/2) 4 0 = 2 ∧
      Analog.float_to_unsigned_fixed_hex_round (5/2) 4 0 ≠ 3 := by
  have h : Analog.float_to_unsigned_fixed_hex_round (5/2) 4 0 = 2 := by
    norm_num [Analog.float_to_unsigned_fixed_hex_round, pyRound]
    rfl
  exact ⟨h, by rw [h]; norm_num⟩

/-- C7 (amended): the rounding-mode encoder implements Python 3
round-half-to-even — for every non-negative value whose scaled value is
exactly z + 1/2, it encodes the nearest even integer (z if z is even,
z + 1 otherwise) before saturation; in particular a scaled value of 2.5
encodes 2, not 3. -/
theorem C7_round_half_even_amended (m n : ℕ) (v : ℚ) (z : ℤ)
    (hv : 0 ≤ v) (hz : v * ((2 ^ n : ℕ) : ℚ) = (z : ℚ) + 1/2) :
    Analog.float_to_unsigned_fixed_hex_round v m n =
      (max (min (if z % 2 = 0 then z else z + 1) ((2 : ℤ) ^ (m + n) - 1)) 0).toNat := by
  simp only [Analog.float_to_unsigned_fixed_hex_round]
  rw [hz, pyRound_half]

/-- C7 witness: the amended rounding property evaluated at value 1.25 in
the u4.1 format (scaled value 2.5, which rounds to the even integer 2). -/
theorem C7_round_half_even_witness :
    Analog.float_to_unsigned_fixed_hex_round (5/4) 4 1 = 2 := by
  have h := C7_round_half_even_amended 4 1 (5/4) 2 (by norm_num) (by norm_num)
  rw [h]
  norm_num
  rfl

namespace Droop

lemma droop_decodeU_eq : Droop.hex_to_unsigned_fixed = Adj.hex_to_unsigned_fixed := rfl

lemma droop_decode_nonneg (num m n : ℕ) : 0 ≤ hex_to_unsigned_fixed num m n := by
  rw [droop_decodeU_eq]
  exact Adj.hex_to_unsigned_nonneg num m n

lemma droop_algorithm_closed (hex_data hex_k hex_r hex_th : ℕ) :
    droop_algorithm hex_data hex_k hex_r hex_r hex_th =
      hex_to_unsigned_fixed hex_data 12 0 * hex_to_unsigned_fixed hex_r 6 6 *
        hex_to_unsigned_fixed hex_k 0 12 := by
  simp only [droop_algorithm]
  split_ifs
  · rfl
  · ring

end Droop

/-- C9: with equal slopes r1 = r2 and fixed gain k, droop_algorithm is
non-decreasing in the 12-bit data code, and the two segments agree
everywhere (both reduce to data * r * k), so there is no discontinuity
at the breakpoint th. -/
theorem C9_droop_monotone (hex_k hex_r hex_th d1 d2 : ℕ)
    (hle : d1 ≤ d2) (hlt : d2 < 4096) :
    Droop.droop_algorithm d1 hex_k hex_r hex_r hex_th ≤
        Droop.droop_algorithm d2 hex_k hex_r hex_r hex_th ∧
      ∀ hex_data : ℕ, Droop.droop_algorithm hex_data hex_k hex_r hex_r hex_th =
        Droop.hex_to_unsigned_fixed hex_data 12 0 *
          Droop.hex_to_unsigned_fixed hex_r 6 6 *
          Droop.hex_to_unsigned_fixed hex_k 0 12 := by
  refine ⟨?_, fun hex_data => Droop.droop_algorithm_closed hex_data hex_k hex_r hex_th⟩
  rw [Droop.droop_algorithm_closed, Droop.droop_algorithm_closed]
  have hd : Droop.hex_to_unsigned_fixed d1 12 0 ≤ Droop.hex_to_unsigned_fixed d2 12 0 := by
    simp only [Droop.hex_to_unsigned_fixed]
    have h1 : d1 % 2 ^ (12 + 0) = d1 := Nat.mod_eq_of_lt (by omega)
    have h2 : d2 % 2 ^ (12 + 0) = d2 := Nat.mod_eq_of_lt (by omega)
    rw [h1, h2]
    have : (d1 : ℚ) ≤ (d2 : ℚ) := Nat.cast_le.mpr hle
    apply div_le_div_of_nonneg_right this (by positivity)
  have hr := Droop.droop_decode_nonneg hex_r 6 6
  have hk := Droop.droop_decode_nonneg hex_k 0 12
  have hd1 := Droop.droop_decode_nonneg d1 12 0
  apply mul_le_mul_of_nonneg_right _ hk
  exact mul_le_mul_of_nonneg_right hd hr

/-- C9 witness: monotonicity evaluated at the concrete codes 100 ≤ 200
with gain 0x800, slope 0x040 and breakpoint 150. -/
theorem C9_droop_monotone_witness :
    Droop.droop_algorithm 100 0x800 0x40 0x40 150 ≤
      Droop.droop_algorithm 200 0x800 0x40 0x40 150 := by
  exact (C9_droop_monotone 0x800 0x40 150 100 200 (by norm_num) (by norm_num)).1

lemma pyTrunc_of_nonneg (x : ℚ) (h : 0 ≤ x) : pyTrunc x = ⌊x⌋ := if_pos h

/-- C10: for every PWM-generator input with period selector at most 3,
the returned integer counts satisfy pwm_high + pwm_low =
(prd_sel + 1) * 100, pwm_high is the rounded product of the decoded
clamped duty and the period, and the returned clamped duty hex decodes
to a value in [0, 1) in the u0.12 format. -/
theorem C10_pwm (hex_data hex_trim int_adc int_prd_pwm : ℕ) (hsel : int_prd_pwm ≤ 3) :
    (Analog.analog_current_share_algorithm hex_data hex_trim int_adc int_prd_pwm).2.2.1 +
        (Analog.analog_current_share_algorithm hex_data hex_trim int_adc int_prd_pwm).2.2.2 =
      ((int_prd_pwm : ℤ) + 1) * 100 ∧
      (Analog.analog_current_share_algorithm hex_data hex_trim int_adc int_prd_pwm).2.2.1 =
        round (Analog.hex_to_unsigned_fixed
          (Analog.analog_current_share_algorithm hex_data hex_trim int_adc
            int_prd_pwm).2.1 0 12 * (((int_prd_pwm + 1) * 100 : ℕ) : ℚ)) ∧
      0 ≤ Analog.hex_to_unsigned_fixed
        (Analog.analog_current_share_algorithm hex_data hex_trim int_adc
          int_prd_pwm).2.1 0 12 ∧
      Analog.hex_to_unsigned_fixed
        (Analog.analog_current_share_algorithm hex_data hex_trim int_adc
          int_prd_pwm).2.1 0 12 < 1 := by
  simp only [Analog.analog_current_share_algorithm]
  refine ⟨by push_cast; ring, ?_, Analog.analog_decode_nonneg _ 0 12,
    Analog.hex_to_unsigned_u012_lt_one _⟩
  have hd : 0 ≤ Analog.hex_to_unsigned_fixed
      (Analog.float_to_unsigned_fixed_hex_round
        (Analog.hex_to_unsigned_fixed
          (Analog.float_to_unsigned_fixed_hex_round
            (Analog.hex_to_unsigned_fixed hex_data 12 0 *
              Analog.hex_to_unsigned_fixed hex_trim 1 12 /
                ((2 ^ int_adc : ℕ) : ℚ) * Analog.hex_to_unsigned_fixed 0xCCD 0 12)
            13 12) 13 12) 0 12) 0 12 :=
    Analog.analog_decode_nonneg _ 0 12
  rw [pyTrunc_of_nonneg _ (by positivity), round_eq]

/-- C10 witness: the spec's concrete duty-clamp scenario — data 0xFFF,
trim 0xFFF, 8 ADC bits, period selector 3 — gives pwm_high + pwm_low =
400 with the clamped duty decoding into [0, 1). -/
theorem C10_pwm_witness :
    (Analog.analog_current_share_algorithm 0xFFF 0xFFF 8 3).2.2.1 +
        (Analog.analog_current_share_algorithm 0xFFF 0xFFF 8 3).2.2.2 = 400 ∧
      0 ≤ Analog.hex_to_unsigned_fixed
        (Analog.analog_current_share_algorithm 0xFFF 0xFFF 8 3).2.1 0 12 ∧
      Analog.hex_to_unsigned_fixed
        (Analog.analog_current_share_algorithm 0xFFF 0xFFF 8 3).2.1 0 12 < 1 := by
  obtain ⟨h1, h2, h3, h4⟩ := C10_pwm 0xFFF 0xFFF 8 3 (by norm_num)
  exact ⟨h1.trans (by norm_num), h3, h4⟩
